import Mathlib

/-!
Verification development for the repository-lifecycle orchestrator of
eyedeekay/github-archiver: the continuation resolver (pkg/util/util.go),
the inactivity classifier (pkg/analyzer/analyzer.go), the hosting-service
client operations it consults (pkg/github/client.go), and the four-step
archive transaction (pkg/archiver).  Remote calls are modelled by explicit
oracles (per-call outcomes) and, for the archive transaction, by an
explicit host state together with a trace of the remote calls issued.
Timestamps are integers; the Go zero `time.Time{}` is the constant
`zeroTime`.
-/

/-- A repository summary, embedding the `Repository` struct of
pkg/github/client.go (Owner, Name, LastActivity, IsArchived). -/
structure Repository where
  Owner : String
  Name : String
  LastActivity : Int
  IsArchived : Bool
deriving DecidableEq, Repr

/-- The Go zero value `time.Time{}`, used where the source returns a zero
timestamp (failed fetches, nil repository objects). -/
def zeroTime : Int := 0

/-- Embedding of `util.ForceProcessing` (pkg/util/util.go).  The global
`FORCE_PROCESSING` flag is threaded as the explicit `force` parameter; the
error argument is `Option String`.  The returned boolean is the *abort*
decision, exactly as in the source: callers abort when it is `true`.
The source logs the error first (a side effect, not modelled), returns
`false` when the flag is set, and otherwise returns `e != nil`. -/
def ForceProcessing (force : Bool) (e : Option String) : Bool :=
  if force then false else e.isSome

/-- The error component of a Go `(value, err)` result, as consulted by
`util.ForceProcessing` call sites. -/
def errOf {α : Type} : Except String α → Option String
  | .ok _ => none
  | .error e => some e

/-- Outcomes of the two remote calls made by `Client.GetLastActivity`
(pkg/github/client.go): `repoGet` is the primary `Repositories.Get`
(on success it carries the repository's `PushedAt` time; on error the
returned repository object is nil), and `issuesList` is
`Issues.ListByRepo` sorted by update descending with page size 1 (on
success it carries the most recently updated issue/PR time, or `none`
when the repository has no issues). -/
structure ActivityFetch where
  repoGet : Except String Int
  issuesList : Except String (Option Int)
deriving Repr

/-- Embedding of `Client.GetLastActivity` (pkg/github/client.go).
The primary fetch error is gated by `util.ForceProcessing`; when the gate
does not abort but the fetch failed (force mode), the nil repository's
`GetPushedAt()` getter yields the zero time (go-github getters are
nil-safe).  The issue/PR query result is folded in with `After`; its
error branch only logs a warning, so it never aborts. -/
def GetLastActivity (force : Bool) (f : ActivityFetch) : Except String Int :=
  if ForceProcessing force (errOf f.repoGet) then
    .error "failed to get repository info"
  else
    let lastActivity : Int :=
      match f.repoGet with
      | .ok pushed => pushed
      | .error _ => zeroTime
    let lastActivity2 : Int :=
      match f.issuesList with
      | .ok (some issueTime) =>
          if issueTime > lastActivity then issueTime else lastActivity
      | _ => lastActivity
    .ok lastActivity2

/-- Embedding of the loop body of `Analyzer.FindInactiveRepositories`
(pkg/analyzer/analyzer.go), structurally recursive over the repository
list.  The second component records the `GetLastActivity` calls issued,
as (owner, name) pairs, in order.  Archived repositories are skipped
before any remote call; a fetch error is gated by `util.ForceProcessing`
and aborts with no partial result; otherwise the repository's
`LastActivity` is replaced by the fetched value (the Go call returns the
zero time alongside an error) and the repository is kept exactly when
that value is strictly before the cutoff. -/
def FindInactiveLoop (force : Bool) (fetch : String → String → ActivityFetch)
    (cutoffDate : Int) :
    List Repository → Except String (List Repository) × List (String × String)
  | [] => (.ok [], [])
  | repo :: rest =>
    if repo.IsArchived then FindInactiveLoop force fetch cutoffDate rest
    else
      let act := GetLastActivity force (fetch repo.Owner repo.Name)
      if ForceProcessing force (errOf act) then
        (.error ("failed to check activity for " ++ repo.Owner ++ "/" ++ repo.Name),
         [(repo.Owner, repo.Name)])
      else
        let lastActivity : Int := match act with | .ok t => t | .error _ => zeroTime
        let tail := FindInactiveLoop force fetch cutoffDate rest
        ((if lastActivity < cutoffDate then
            tail.1.map (fun l => { repo with LastActivity := lastActivity } :: l)
          else tail.1),
         (repo.Owner, repo.Name) :: tail.2)

/-- Embedding of `Analyzer.FindInactiveRepositories` (pkg/analyzer/analyzer.go):
computes `cutoffDate = now - inactivityPeriod` and runs the loop. -/
def FindInactiveRepositories (force : Bool) (fetch : String → String → ActivityFetch)
    (now inactivityPeriod : Int) (repos : List Repository) :
    Except String (List Repository) × List (String × String) :=
  FindInactiveLoop force fetch (now - inactivityPeriod) repos

/-- The last-activity value the analyzer ends up using for a repository:
the fetched timestamp on success, the zero time otherwise (mirroring the
Go call which returns `time.Time{}` together with an error). -/
def authActivity (force : Bool) (fetch : String → String → ActivityFetch)
    (r : Repository) : Int :=
  match GetLastActivity force (fetch r.Owner r.Name) with
  | .ok t => t
  | .error _ => zeroTime

/-- Specification-side description of the classifier's output: the
non-archived input repositories whose authoritative last activity is
strictly before the cutoff, in input order, each carrying the
authoritative timestamp. -/
def inactiveSpec (force : Bool) (fetch : String → String → ActivityFetch)
    (cutoffDate : Int) (repos : List Repository) : List Repository :=
  repos.filterMap (fun r =>
    if r.IsArchived then none
    else if authActivity force fetch r < cutoffDate then
      some { r with LastActivity := authActivity force fetch r }
    else none)

/-- State-threading embedding of the loop of
`Analyzer.FindInactiveRepositories` (pkg/analyzer/analyzer.go), iterating
by index over the caller's slice, which is threaded through as explicit
state and returned.  Go's `for i, repo := range repos` copies `repos[i]`
into the loop-local `repo`; the body's only assignment,
`repo.LastActivity = lastActivity`, targets that local copy (rendered as
the rebinding `repo2`), and no statement assigns into the slice, so the
slice state passes through every branch unchanged. -/
def FindInactiveFrom (force : Bool) (fetch : String → String → ActivityFetch)
    (cutoffDate : Int) (store : List Repository) (i : Nat) :
    Except String (List Repository) × List Repository :=
  if hlt : i < store.length then
    let repo := store.get ⟨i, hlt⟩
    if repo.IsArchived then FindInactiveFrom force fetch cutoffDate store (i + 1)
    else
      let act := GetLastActivity force (fetch repo.Owner repo.Name)
      if ForceProcessing force (errOf act) then
        (.error ("failed to check activity for " ++ repo.Owner ++ "/" ++ repo.Name), store)
      else
        let lastActivity : Int := match act with | .ok t => t | .error _ => zeroTime
        let repo2 := { repo with LastActivity := lastActivity }
        let tail := FindInactiveFrom force fetch cutoffDate store (i + 1)
        ((if lastActivity < cutoffDate then tail.1.map (fun l => repo2 :: l) else tail.1),
         tail.2)
  else (.ok [], store)
termination_by store.length - i

/-- The state-threading form of `Analyzer.FindInactiveRepositories`,
starting at index 0 and returning the result together with the caller's
slice. -/
def FindInactiveRepositoriesSt (force : Bool) (fetch : String → String → ActivityFetch)
    (now inactivityPeriod : Int) (repos : List Repository) :
    Except String (List Repository) × List Repository :=
  FindInactiveFrom force fetch (now - inactivityPeriod) repos 0

/-- A remote-call event issued by the archive transaction, identifying
the underlying hosting-service operation and its arguments. -/
inductive Event where
  | orgGet (name : String)
  | userGet (name : String)
  | repoGet (owner name : String)
  | createFork (owner name targetOrg : String)
  | deleteRepo (owner name : String)
  | editRepo (owner name : String) (archived : Bool)
  | wait (seconds : Nat)
deriving DecidableEq, Repr

/-- The durable state on the remote host: which organizations and user
accounts exist, and the hosted repositories as (owner, name, archived)
entries. -/
structure Host where
  orgs : List String
  users : List String
  repos : List (String × String × Bool)
deriving DecidableEq, Repr

/-- Whether a host entry is the repository (owner, name). -/
def entryMatches (owner name : String) (e : String × String × Bool) : Bool :=
  e.1 == owner && e.2.1 == name

/-- Whether owner/name exists on the host (the outcome of the
`Repositories.Get` existence probe). -/
def Host.hasRepo (h : Host) (owner name : String) : Bool :=
  h.repos.any (entryMatches owner name)

/-- Effect of a successful `Repositories.CreateFork`: the fork appears
under the target namespace, not archived. -/
def Host.addRepo (h : Host) (owner name : String) (archived : Bool) : Host :=
  { h with repos := h.repos ++ [(owner, name, archived)] }

/-- Effect of a successful `Repositories.Delete`. -/
def Host.removeRepo (h : Host) (owner name : String) : Host :=
  { h with repos := h.repos.filter (fun e => !(entryMatches owner name e)) }

/-- Effect of a successful `Repositories.Edit` setting the archived
flag. -/
def Host.setRepoArchived (h : Host) (owner name : String) (archived : Bool) : Host :=
  { h with repos := h.repos.map (fun e =>
      if entryMatches owner name e then (e.1, e.2.1, archived) else e) }

/-- The archived flag of owner/name on the host, when present. -/
def Host.archivedOf (h : Host) (owner name : String) : Option Bool :=
  (h.repos.find? (entryMatches owner name)).map (fun e => e.2.2)

/-- The remote environment an archive transaction runs against: the host
state plus the outcome oracles for the three mutating calls whose
success is not determined by the modelled state (`Repositories.CreateFork`,
`Repositories.Delete`, `Repositories.Edit`). -/
structure Remote where
  host : Host
  forkFails : Bool
  deleteFails : Bool
  editFails : Bool
deriving Repr

/-- Embedding of `Client.CreateArchiveNamespace` (pkg/github/client.go):
`Organizations.Get` then, on failure, `Users.Get`; when neither resolves,
the namespace-missing error is returned.  Read-only: the host is not
changed. -/
def CreateArchiveNamespace (ns : String) (h : Host) :
    Except String Unit × List Event :=
  if h.orgs.contains ns then (.ok (), [.orgGet ns])
  else if h.users.contains ns then (.ok (), [.orgGet ns, .userGet ns])
  else
    (.error ("archive namespace '" ++ ns ++
      "' does not exist and cannot be created automatically"),
     [.orgGet ns, .userGet ns])

/-- Embedding of `Client.ForkRepository` (pkg/github/client.go): probe
`Repositories.Get(targetOrg, repo)`; if it succeeds the fork step is an
idempotent no-op; otherwise `Repositories.CreateFork` is requested, its
error gated by `util.ForceProcessing` (under force a failed fork call
still returns nil). -/
def ForkRepository (force forkFails : Bool) (owner repo targetOrg : String)
    (h : Host) : Except String Unit × Host × List Event :=
  if h.hasRepo targetOrg repo then
    (.ok (), h, [.repoGet targetOrg repo])
  else
    let evs := [Event.repoGet targetOrg repo, Event.createFork owner repo targetOrg]
    if forkFails then
      if ForceProcessing force (some "fork failed") then
        (.error "failed to fork repository", h, evs)
      else (.ok (), h, evs)
    else (.ok (), h.addRepo targetOrg repo false, evs)

/-- Embedding of `Client.DeleteRepository` (pkg/github/client.go):
`Repositories.Delete`, its error gated by `util.ForceProcessing`. -/
def DeleteRepository (force deleteFails : Bool) (owner repo : String)
    (h : Host) : Except String Unit × Host × List Event :=
  if deleteFails then
    if ForceProcessing force (some "delete failed") then
      (.error "failed to delete repository", h, [.deleteRepo owner repo])
    else (.ok (), h, [.deleteRepo owner repo])
  else (.ok (), h.removeRepo owner repo, [.deleteRepo owner repo])

/-- Embedding of `Client.SetArchiveStatus` (pkg/github/client.go): fetch
the repository (`Repositories.Get` succeeds exactly when it exists on the
host); on a gated-through fetch failure the nil-object check fails
unconditionally; otherwise the archived flag is set and pushed with
`Repositories.Edit`, whose error is gated by `util.ForceProcessing`. -/
def SetArchiveStatus (force editFails : Bool) (owner repo : String)
    (archived : Bool) (h : Host) : Except String Unit × Host × List Event :=
  if h.hasRepo owner repo then
    let evs := [Event.repoGet owner repo, Event.editRepo owner repo archived]
    if editFails then
      if ForceProcessing force (some "edit failed") then
        (.error "failed to update archive status", h, evs)
      else (.ok (), h, evs)
    else (.ok (), h.setRepoArchived owner repo archived, evs)
  else
    if ForceProcessing force (some "not found") then
      (.error "failed to get repository info", h, [.repoGet owner repo])
    else
      (.error "repository object is nil", h, [.repoGet owner repo])

/-- Embedding of `Archiver.ArchiveRepository` (pkg/archiver): the
four-step transaction — namespace verification, fork, fixed propagation
wait, delete of the original, set-archived on the fork — each step's
returned error gated by `util.ForceProcessing`.  Returns the outcome, the
final host state, and the trace of remote calls issued (the propagation
wait appears in the trace as `Event.wait 5`). -/
def ArchiveRepository (force : Bool) (r : Remote)
    (owner archiveNamespace repo : String) :
    Except String Unit × Host × List Event :=
  let s1 := CreateArchiveNamespace archiveNamespace r.host
  if ForceProcessing force (errOf s1.1) then
    (.error "failed to create archive namespace", r.host, s1.2)
  else
    let s2 := ForkRepository force r.forkFails owner repo archiveNamespace r.host
    if ForceProcessing force (errOf s2.1) then
      (.error "failed to fork repository", s2.2.1, s1.2 ++ s2.2.2)
    else
      let s4 := DeleteRepository force r.deleteFails owner repo s2.2.1
      if ForceProcessing force (errOf s4.1) then
        (.error "failed to delete original repository", s4.2.1,
         s1.2 ++ s2.2.2 ++ [.wait 5] ++ s4.2.2)
      else
        let s5 := SetArchiveStatus force r.editFails archiveNamespace repo true s4.2.1
        if ForceProcessing force (errOf s5.1) then
          (.error "failed to set archived status", s5.2.1,
           s1.2 ++ s2.2.2 ++ [.wait 5] ++ s4.2.2 ++ s5.2.2)
        else
          (.ok (), s5.2.1, s1.2 ++ s2.2.2 ++ [.wait 5] ++ s4.2.2 ++ s5.2.2)

theorem forceProcessing_none (force : Bool) : ForceProcessing force none = false := by
  cases force <;> rfl

theorem forceProcessing_true (e : Option String) : ForceProcessing true e = false := rfl

theorem errOf_ok {α : Type} (a : α) : errOf (Except.ok a : Except String α) = none := rfl

/-- Claim C2: the continuation resolver, as a function of (error, force
flag), decides to continue (that is, `util.ForceProcessing` returns
`false`) exactly when the error is absent or the force flag is set. -/
theorem c2_continuation_resolver (force : Bool) (e : Option String) :
    ForceProcessing force e = false ↔ (e = none ∨ force = true) := by
  cases force <;> cases e <;> simp [ForceProcessing]

theorem findInactiveLoop_ok (force : Bool) (fetch : String → String → ActivityFetch)
    (c : Int) : ∀ (repos out : List Repository),
    (FindInactiveLoop force fetch c repos).1 = .ok out →
    out = inactiveSpec force fetch c repos := by
  intro repos
  induction repos with
  | nil =>
    intro out h
    simp only [FindInactiveLoop] at h
    cases h
    rfl
  | cons repo rest ih =>
    intro out h
    rw [FindInactiveLoop] at h
    cases hA : repo.IsArchived with
    | true =>
      rw [hA] at h
      simp only [if_true] at h
      simp only [inactiveSpec, List.filterMap_cons, hA, if_true]
      exact ih out h
    | false =>
      rw [hA] at h
      simp only [Bool.false_eq_true, if_false] at h
      by_cases hF : ForceProcessing force (errOf (GetLastActivity force (fetch repo.Owner repo.Name))) = true
      · rw [if_pos hF] at h
        exact absurd h (by simp)
      · rw [if_neg hF] at h
        simp only at h
        set la := (match GetLastActivity force (fetch repo.Owner repo.Name) with
          | .ok t => t | .error _ => zeroTime) with hla
        have hauth : authActivity force fetch repo = la := by
          rw [authActivity, hla]
        by_cases hlt : la < c
        · rw [if_pos hlt] at h
          cases htail : (FindInactiveLoop force fetch c rest).1 with
          | error e => rw [htail] at h; exact absurd h (by simp [Except.map])
          | ok l =>
            rw [htail] at h
            simp only [Except.map, Except.ok.injEq] at h
            have hl := ih l htail
            simp only [inactiveSpec, List.filterMap_cons, hA, Bool.false_eq_true, if_false,
              hauth, if_pos hlt]
            rw [← h, hl]
            rfl
        · rw [if_neg hlt] at h
          simp only [inactiveSpec, List.filterMap_cons, hA, Bool.false_eq_true, if_false,
            hauth, if_neg hlt]
          exact ih out h

theorem findInactiveLoop_force_ok (fetch : String → String → ActivityFetch)
    (c : Int) : ∀ (repos : List Repository),
    (FindInactiveLoop true fetch c repos).1 = .ok (inactiveSpec true fetch c repos) := by
  intro repos
  induction repos with
  | nil => rfl
  | cons repo rest ih =>
    rw [FindInactiveLoop]
    cases hA : repo.IsArchived with
    | true =>
      simp only [if_true, inactiveSpec, List.filterMap_cons, hA]
      exact ih
    | false =>
      simp only [Bool.false_eq_true, if_false, forceProcessing_true]
      set la := (match GetLastActivity true (fetch repo.Owner repo.Name) with
        | .ok t => t | .error _ => zeroTime) with hla
      have hauth : authActivity true fetch repo = la := by
        rw [authActivity, hla]
      simp only [inactiveSpec, List.filterMap_cons, hA, Bool.false_eq_true, if_false, hauth]
      by_cases hlt : la < c
      · simp only [if_pos hlt, ih, Except.map]
        rfl
      · simp only [if_neg hlt, ih]
        rfl

theorem findInactiveLoop_calls (force : Bool) (fetch : String → String → ActivityFetch)
    (c : Int) : ∀ (repos : List Repository) (p : String × String),
    p ∈ (FindInactiveLoop force fetch c repos).2 →
    ∃ r, r ∈ repos ∧ r.IsArchived = false ∧ p = (r.Owner, r.Name) := by
  intro repos
  induction repos with
  | nil => intro p hp; simp [FindInactiveLoop] at hp
  | cons repo rest ih =>
    intro p hp
    rw [FindInactiveLoop] at hp
    cases hA : repo.IsArchived with
    | true =>
      rw [hA] at hp
      simp only [if_true] at hp
      obtain ⟨r, hr, har, hpr⟩ := ih p hp
      exact ⟨r, List.mem_cons_of_mem _ hr, har, hpr⟩
    | false =>
      rw [hA] at hp
      simp only [Bool.false_eq_true, if_false] at hp
      by_cases hF : ForceProcessing force (errOf (GetLastActivity force (fetch repo.Owner repo.Name))) = true
      · rw [if_pos hF] at hp
        simp only [List.mem_singleton] at hp
        exact ⟨repo, List.mem_cons_self _ _, hA, hp⟩
      · rw [if_neg hF] at hp
        simp only [List.mem_cons] at hp
        cases hp with
        | inl hp => exact ⟨repo, List.mem_cons_self _ _, hA, hp⟩
        | inr hp =>
          obtain ⟨r, hr, har, hpr⟩ := ih p hp
          exact ⟨r, List.mem_cons_of_mem _ hr, har, hpr⟩

theorem inactiveSpec_not_archived (force : Bool) (fetch : String → String → ActivityFetch)
    (c : Int) (repos : List Repository) (x : Repository)
    (hx : x ∈ inactiveSpec force fetch c repos) : x.IsArchived = false := by
  simp only [inactiveSpec, List.mem_filterMap] at hx
  obtain ⟨r, _, hfr⟩ := hx
  split at hfr
  · exact absurd hfr (by simp)
  · split at hfr
    · rw [Option.some.injEq] at hfr
      rw [← hfr]
      rename_i hA _
      simpa using hA
    · exact absurd hfr (by simp)

/-- Claim C3: already-archived repositories never appear in the
classifier's output (every output repository is non-archived), and every
hosting-service activity lookup issued belongs to a non-archived input
repository — so no lookup is performed for an archived one. -/
theorem c3_archived_never_considered (force : Bool)
    (fetch : String → String → ActivityFetch) (now period : Int)
    (repos : List Repository) :
    (∀ out, (FindInactiveRepositories force fetch now period repos).1 = .ok out →
      ∀ x ∈ out, x.IsArchived = false) ∧
    (∀ p ∈ (FindInactiveRepositories force fetch now period repos).2,
      ∃ r, r ∈ repos ∧ r.IsArchived = false ∧ p = (r.Owner, r.Name)) := by
  constructor
  · intro out h x hx
    have hout := findInactiveLoop_ok force fetch (now - period) repos out h
    exact inactiveSpec_not_archived force fetch (now - period) repos x (hout ▸ hx)
  · intro p hp
    exact findInactiveLoop_calls force fetch (now - period) repos p hp

/-- Concrete instance of C3: an archived repository is skipped while a
stale non-archived one is returned, with the archived flag false. -/
theorem c3_witness :
    ({ Owner := "b", Name := "s", LastActivity := 0, IsArchived := false } :
      Repository).IsArchived = false :=
  (c3_archived_never_considered false (fun _ _ => ⟨.ok 0, .ok none⟩) 100 0
      [⟨"a", "r", 5, true⟩, ⟨"b", "s", 5, false⟩]).1
    [⟨"b", "s", 0, false⟩] rfl _ (by simp)

/-- Claim C4: whenever the classifier succeeds, its output is exactly the
non-archived input repositories whose authoritative last activity is
strictly before `now - threshold`, in input order, each carrying the
authoritative timestamp (see `inactiveSpec`). -/
theorem c4_success_output (force : Bool) (fetch : String → String → ActivityFetch)
    (now period : Int) (repos out : List Repository)
    (h : (FindInactiveRepositories force fetch now period repos).1 = .ok out) :
    out = inactiveSpec force fetch (now - period) repos :=
  findInactiveLoop_ok force fetch (now - period) repos out h

/-- Concrete instance of C4: cutoff 50, one repository with activity 20
(push 10 raised by an issue update at 20) is returned with timestamp 20,
an archived one is dropped. -/
theorem c4_witness :
    ([⟨"a", "r", 20, false⟩] : List Repository)
      = inactiveSpec false (fun _ _ => ⟨.ok 10, .ok (some 20)⟩) 50
          [⟨"a", "r", 99, false⟩, ⟨"b", "s", 0, true⟩] :=
  c4_success_output false (fun _ _ => ⟨.ok 10, .ok (some 20)⟩) 100 50
    [⟨"a", "r", 99, false⟩, ⟨"b", "s", 0, true⟩] [⟨"a", "r", 20, false⟩] rfl

/-- Claim C10 counterexample: force mode, the primary repository fetch
fails, the issue/PR sub-query succeeds with update time 200, and the zero
time is strictly before the cutoff 100 — yet the repository is not
classified inactive, because the code raises the zero time to the issue
time rather than using the zero timestamp. -/
theorem c10_counterexample :
    (FindInactiveRepositories true (fun _ _ => ⟨.error "boom", .ok (some 200)⟩) 100 0
        [⟨"a", "r", 5, false⟩]).1 = .ok [] ∧
    zeroTime < 100 - 0 ∧
    ({ Owner := "a", Name := "r", LastActivity := 5, IsArchived := false } :
      Repository).IsArchived = false ∧
    (ActivityFetch.mk (.error "boom") (.ok (some 200))).repoGet = .error "boom" :=
  ⟨rfl, by decide, rfl, rfl⟩

/-- Claim C10 (amended): with the force flag set the classifier never
returns an error — its result is `.ok` of the characterized output — and
a repository whose primary fetch failed is processed with the zero
timestamp raised to the most recent issue/PR update time when that
sub-query succeeds with results (the zero timestamp alone otherwise). -/
theorem c10_amended_force_never_errors (fetch : String → String → ActivityFetch)
    (now period : Int) (repos : List Repository) :
    (FindInactiveRepositories true fetch now period repos).1
      = .ok (inactiveSpec true fetch (now - period) repos) ∧
    (∀ (f : ActivityFetch) (e : String), f.repoGet = .error e →
      GetLastActivity true f = .ok (match f.issuesList with
        | .ok (some t) => if t > zeroTime then t else zeroTime
        | _ => zeroTime)) := by
  constructor
  · exact findInactiveLoop_force_ok fetch (now - period) repos
  · intro f e hf
    rw [GetLastActivity, forceProcessing_true, if_neg (by simp)]
    rw [hf]

/-- Concrete instance of C10 (amended): failed primary fetch under force,
issue update at 3, yields activity 3 and no error. -/
theorem c10_witness :
    GetLastActivity true ⟨.error "x", .ok (some 3)⟩
      = .ok (match (Except.ok (some 3) : Except String (Option Int)) with
          | .ok (some t) => if t > zeroTime then t else zeroTime
          | _ => zeroTime) :=
  (c10_amended_force_never_errors (fun _ _ => ⟨.error "x", .ok (some 3)⟩) 0 0 []).2
    ⟨.error "x", .ok (some 3)⟩ "x" rfl

theorem findInactiveFrom_state (force : Bool) (fetch : String → String → ActivityFetch)
    (c : Int) (store : List Repository) :
    ∀ (n i : Nat), store.length ≤ i + n →
      (FindInactiveFrom force fetch c store i).2 = store := by
  intro n
  induction n with
  | zero =>
    intro i hi
    rw [FindInactiveFrom]
    rw [dif_neg (by omega)]
  | succ n ih =>
    intro i hi
    rw [FindInactiveFrom]
    by_cases hlt : i < store.length
    · rw [dif_pos hlt]
      simp only
      by_cases hA : (store.get ⟨i, hlt⟩).IsArchived = true
      · rw [if_pos hA]
        exact ih (i + 1) (by omega)
      · rw [if_neg hA]
        by_cases hF : ForceProcessing force
            (errOf (GetLastActivity force
              (fetch (store.get ⟨i, hlt⟩).Owner (store.get ⟨i, hlt⟩).Name))) = true
        · rw [if_pos hF]
        · rw [if_neg hF]
          exact ih (i + 1) (by omega)
    · rw [dif_neg hlt]

/-- Claim C9: the classifier never mutates its input — the caller's slice
of repository values, threaded through the loop as explicit state, is
returned unchanged (the fetched timestamp is written only into the
loop-local copy that is placed in the output). -/
theorem c9_input_unchanged (force : Bool) (fetch : String → String → ActivityFetch)
    (now period : Int) (repos : List Repository) :
    (FindInactiveRepositoriesSt force fetch now period repos).2 = repos :=
  findInactiveFrom_state force fetch (now - period) repos repos.length 0
    (by omega)

/-- Claim C7: when the primary repository fetch succeeds,
`Client.GetLastActivity` returns the later of the push timestamp and the
most recently updated issue/PR timestamp; when the issue/PR sub-query
fails (or finds no issues) it still succeeds — under either force-flag
value — returning the push timestamp alone. -/
theorem c7_last_activity (force : Bool) (f : ActivityFetch) (pushed : Int)
    (h : f.repoGet = .ok pushed) :
    (∀ t, f.issuesList = .ok (some t) →
      GetLastActivity force f = .ok (max pushed t)) ∧
    (∀ e, f.issuesList = .error e → GetLastActivity force f = .ok pushed) ∧
    (f.issuesList = .ok none → GetLastActivity force f = .ok pushed) := by
  have hgate : ForceProcessing force (errOf f.repoGet) = false := by
    rw [h]
    exact forceProcessing_none force
  refine ⟨?_, ?_, ?_⟩
  · intro t hI
    rw [GetLastActivity, hgate, if_neg (by simp), h, hI]
    simp only [Except.ok.injEq]
    rcases le_or_lt t pushed with h1 | h1
    · rw [if_neg (by omega), max_eq_left h1]
    · rw [if_pos (by omega), max_eq_right (le_of_lt h1)]
  · intro e hI
    rw [GetLastActivity, hgate, if_neg (by simp), h, hI]
  · intro hI
    rw [GetLastActivity, hgate, if_neg (by simp), h, hI]

/-- Concrete instance of C7: push at 10, issue update at 20, activity is
their maximum. -/
theorem c7_witness :
    GetLastActivity false ⟨.ok 10, .ok (some 20)⟩ = .ok (max 10 20) :=
  (c7_last_activity false ⟨.ok 10, .ok (some 20)⟩ 10 rfl).1 20 rfl

theorem hasRepo_addRepo_self (h : Host) (o n : String) (b : Bool) :
    (h.addRepo o n b).hasRepo o n = true := by
  simp [Host.addRepo, Host.hasRepo, entryMatches]

theorem hasRepo_removeRepo_self (h : Host) (o n : String) :
    (h.removeRepo o n).hasRepo o n = false := by
  simp only [Host.removeRepo, Host.hasRepo]
  rw [List.any_eq_false]
  intro e he
  rw [List.mem_filter] at he
  simpa using he.2

theorem hasRepo_removeRepo_ne (h : Host) (o n o' n' : String) (hne : o ≠ o')
    (hr : h.hasRepo o n = true) : (h.removeRepo o' n').hasRepo o n = true := by
  rw [Host.hasRepo, List.any_eq_true] at hr
  obtain ⟨e, he, hm⟩ := hr
  rw [Host.removeRepo, Host.hasRepo]
  rw [List.any_eq_true]
  refine ⟨e, List.mem_filter.mpr ⟨he, ?_⟩, hm⟩
  rw [entryMatches] at hm
  have h1 : e.1 = o := by
    have := (Bool.and_eq_true _ _).mp hm |>.1
    exact beq_iff_eq.mp this
  simp [entryMatches, h1, hne]

theorem hasRepo_setRepoArchived (h : Host) (o' n' : String) (b : Bool) (o n : String) :
    (h.setRepoArchived o' n' b).hasRepo o n = h.hasRepo o n := by
  simp only [Host.setRepoArchived, Host.hasRepo, List.any_map]
  congr 1
  funext e
  by_cases hm : entryMatches o' n' e = true
  · simp only [Function.comp_apply, if_pos hm]
    rfl
  · simp only [Function.comp_apply, if_neg hm]

theorem find_map_setFlag (o n : String) (b : Bool) :
    ∀ (l : List (String × String × Bool)), l.any (entryMatches o n) = true →
    ((l.map (fun e => if entryMatches o n e then (e.1, e.2.1, b) else e)).find?
        (entryMatches o n)).map (fun e => e.2.2) = some b := by
  intro l
  induction l with
  | nil => simp
  | cons e tl ih =>
    intro hl
    by_cases hm : entryMatches o n e = true
    · simp only [List.map_cons, if_pos hm]
      rw [List.find?_cons_of_pos _ (show entryMatches o n (e.1, e.2.1, b) = true from hm)]
      rfl
    · simp only [List.map_cons, if_neg hm]
      rw [List.find?_cons_of_neg _ hm]
      apply ih
      simp only [List.any_cons, hm, Bool.false_or] at hl
      exact hl

theorem archivedOf_setRepoArchived_self (h : Host) (o n : String) (b : Bool)
    (hr : h.hasRepo o n = true) :
    (h.setRepoArchived o n b).archivedOf o n = some b := by
  rw [Host.hasRepo] at hr
  rw [Host.setRepoArchived, Host.archivedOf]
  exact find_map_setFlag o n b h.repos hr

theorem createArchiveNamespace_mem (ns : String) (h : Host) :
    ∀ e ∈ (CreateArchiveNamespace ns h).2,
      e = Event.orgGet ns ∨ e = Event.userGet ns := by
  intro e he
  rw [CreateArchiveNamespace] at he
  split_ifs at he <;> simp_all

theorem forkRepository_exists (force ff : Bool) (o p t : String) (h : Host)
    (he : h.hasRepo t p = true) :
    ForkRepository force ff o p t h = (.ok (), h, [.repoGet t p]) := by
  rw [ForkRepository, if_pos he]

theorem forkRepository_new_ok (force : Bool) (o p t : String) (h : Host)
    (he : h.hasRepo t p = false) :
    ForkRepository force false o p t h
      = (.ok (), h.addRepo t p false, [.repoGet t p, .createFork o p t]) := by
  rw [ForkRepository, if_neg (by simp [he])]
  rfl

theorem forkRepository_head (force ff : Bool) (o p t : String) (h : Host) :
    ∃ rest, (ForkRepository force ff o p t h).2.2 = Event.repoGet t p :: rest := by
  rw [ForkRepository]
  split_ifs <;> exact ⟨_, rfl⟩

theorem deleteRepository_events (force df : Bool) (o p : String) (h : Host) :
    (DeleteRepository force df o p h).2.2 = [Event.deleteRepo o p] := by
  rw [DeleteRepository]
  split_ifs <;> rfl

theorem deleteRepository_ok (force : Bool) (o p : String) (h : Host) :
    DeleteRepository force false o p h
      = (.ok (), h.removeRepo o p, [.deleteRepo o p]) := by
  rfl

theorem deleteRepository_force_fail (o p : String) (h : Host) :
    DeleteRepository true true o p h = (.ok (), h, [.deleteRepo o p]) := rfl

theorem setArchiveStatus_ok (force : Bool) (o p : String) (b : Bool) (h : Host)
    (he : h.hasRepo o p = true) :
    SetArchiveStatus force false o p b h
      = (.ok (), h.setRepoArchived o p b, [.repoGet o p, .editRepo o p b]) := by
  rw [SetArchiveStatus, if_pos he]
  rfl

theorem setArchiveStatus_head (force ef : Bool) (o p : String) (b : Bool) (h : Host) :
    ∃ rest, (SetArchiveStatus force ef o p b h).2.2 = Event.repoGet o p :: rest := by
  rw [SetArchiveStatus]
  split_ifs <;> exact ⟨_, rfl⟩

theorem setArchiveStatus_mem (force ef : Bool) (o p : String) (b : Bool) (h : Host) :
    ∀ e ∈ (SetArchiveStatus force ef o p b h).2.2,
      e = Event.repoGet o p ∨ e = Event.editRepo o p b := by
  intro e he
  rw [SetArchiveStatus] at he
  split_ifs at he <;> simp_all

/-- Claim C1 counterexample: the namespace "ark" exists neither as an
organization nor as a user, yet with the force flag set the transaction
does not abort at the namespace step — the full trace shows fork, wait,
delete and set-archived all performed, and the run ends in success. -/
theorem c1_counterexample :
    (Host.mk [] [] [("alice", "p", false)]).orgs.contains "ark" = false ∧
    (Host.mk [] [] [("alice", "p", false)]).users.contains "ark" = false ∧
    ArchiveRepository true
        ⟨Host.mk [] [] [("alice", "p", false)], false, false, false⟩
        "alice" "ark" "p"
      = (.ok (), Host.mk [] [] [("ark", "p", true)],
         [.orgGet "ark", .userGet "ark", .repoGet "ark" "p",
          .createFork "alice" "p" "ark", .wait 5, .deleteRepo "alice" "p",
          .repoGet "ark" "p", .editRepo "ark" "p" true]) :=
  ⟨rfl, rfl, rfl⟩

/-- Claim C1 (amended): when the force flag is unset, a namespace that
exists neither as an organization nor as a user aborts the transaction
immediately with the namespace-missing error — the host is unchanged and
no fork, delete or set-archived call is issued; when the force flag is
set, the namespace error is overridden like any other step error and the
transaction continues into the fork step. -/
theorem c1_amended_namespace_missing (r : Remote) (owner ns repo : String)
    (ho : r.host.orgs.contains ns = false)
    (hu : r.host.users.contains ns = false) :
    ArchiveRepository false r owner ns repo
      = (.error "failed to create archive namespace", r.host,
         [.orgGet ns, .userGet ns]) ∧
    ∃ rest, (ArchiveRepository true r owner ns repo).2.2
      = Event.orgGet ns :: Event.userGet ns :: Event.repoGet ns repo :: rest := by
  have hs1 : CreateArchiveNamespace ns r.host
      = (.error ("archive namespace '" ++ ns ++
          "' does not exist and cannot be created automatically"),
         [.orgGet ns, .userGet ns]) := by
    rw [CreateArchiveNamespace, if_neg (by simp only [ho]; decide),
      if_neg (by simp only [hu]; decide)]
  constructor
  · simp [ArchiveRepository, hs1, errOf, ForceProcessing]
  · obtain ⟨rest2, hrest2⟩ := forkRepository_head true r.forkFails owner repo ns r.host
    simp only [ArchiveRepository, forceProcessing_true, Bool.false_eq_true, if_false, hs1,
      hrest2]
    refine ⟨rest2 ++ Event.wait 5 ::
        ((DeleteRepository true r.deleteFails owner repo
            (ForkRepository true r.forkFails owner repo ns r.host).2.1).2.2 ++
          (SetArchiveStatus true r.editFails ns repo true
            (DeleteRepository true r.deleteFails owner repo
              (ForkRepository true r.forkFails owner repo ns r.host).2.1).2.1).2.2), ?_⟩
    simp

/-- Concrete instance of the amended C1: force unset, namespace missing,
the transaction returns the namespace-missing step error with the host
untouched and only the two namespace probes in the trace. -/
theorem c1_witness :
    ArchiveRepository false
        ⟨Host.mk [] [] [("alice", "p", false)], false, false, false⟩
        "alice" "ark" "p"
      = (.error "failed to create archive namespace",
         Host.mk [] [] [("alice", "p", false)],
         [.orgGet "ark", .userGet "ark"]) :=
  (c1_amended_namespace_missing
      ⟨Host.mk [] [] [("alice", "p", false)], false, false, false⟩
      "alice" "ark" "p" rfl rfl).1

/-- Claim C5: when a repository of the same name already exists under the
archive namespace (and the transaction reaches the fork step), no
`CreateFork` call ever appears in the trace, the fork step is a
successful no-op, and the transaction proceeds directly to the fixed
propagation wait. -/
theorem c5_fork_idempotent (force : Bool) (r : Remote) (owner ns repo : String)
    (hex : r.host.hasRepo ns repo = true)
    (hns : ForceProcessing force (errOf (CreateArchiveNamespace ns r.host).1) = false) :
    (∀ o n t, Event.createFork o n t ∉ (ArchiveRepository force r owner ns repo).2.2) ∧
    ∃ rest, (ArchiveRepository force r owner ns repo).2.2
      = (CreateArchiveNamespace ns r.host).2
          ++ Event.repoGet ns repo :: Event.wait 5 :: rest := by
  have hfork := forkRepository_exists force r.forkFails owner repo ns r.host hex
  have hdel := deleteRepository_events force r.deleteFails owner repo r.host
  have h1 := createArchiveNamespace_mem ns r.host
  have h2 := setArchiveStatus_mem force r.editFails ns repo true
    (DeleteRepository force r.deleteFails owner repo r.host).2.1
  simp only [ArchiveRepository, hns, Bool.false_eq_true, if_false, hfork, errOf_ok,
    forceProcessing_none]
  constructor
  · intro o n t hmem
    split_ifs at hmem
    · simp only [hdel, List.mem_append, List.mem_cons, List.mem_singleton,
        List.not_mem_nil, or_false, or_assoc] at hmem
      rcases hmem with hmem | hmem | hmem | hmem
      · rcases h1 _ hmem with h | h <;> simp at h
      · simp at hmem
      · simp at hmem
      · simp at hmem
    · simp only [hdel, List.mem_append, List.mem_cons, List.mem_singleton,
        List.not_mem_nil, or_false, or_assoc] at hmem
      rcases hmem with hmem | hmem | hmem | hmem | hmem
      · rcases h1 _ hmem with h | h <;> simp at h
      · simp at hmem
      · simp at hmem
      · simp at hmem
      · rcases h2 _ hmem with h | h <;> simp at h
    · simp only [hdel, List.mem_append, List.mem_cons, List.mem_singleton,
        List.not_mem_nil, or_false, or_assoc] at hmem
      rcases hmem with hmem | hmem | hmem | hmem | hmem
      · rcases h1 _ hmem with h | h <;> simp at h
      · simp at hmem
      · simp at hmem
      · simp at hmem
      · rcases h2 _ hmem with h | h <;> simp at h
  · split_ifs
    · exact ⟨(DeleteRepository force r.deleteFails owner repo r.host).2.2, by simp⟩
    · exact ⟨(DeleteRepository force r.deleteFails owner repo r.host).2.2 ++
        (SetArchiveStatus force r.editFails ns repo true
          (DeleteRepository force r.deleteFails owner repo r.host).2.1).2.2, by simp⟩
    · exact ⟨(DeleteRepository force r.deleteFails owner repo r.host).2.2 ++
        (SetArchiveStatus force r.editFails ns repo true
          (DeleteRepository force r.deleteFails owner repo r.host).2.1).2.2, by simp⟩

/-- Concrete instance of C5: the fork target already holds "ark"/"p", so
no `CreateFork` call appears in the trace. -/
theorem c5_witness :
    Event.createFork "alice" "p" "ark" ∉
      (ArchiveRepository false
        ⟨Host.mk ["ark"] [] [("ark", "p", false), ("alice", "p", false)],
         false, false, false⟩
        "alice" "ark" "p").2.2 :=
  (c5_fork_idempotent false
      ⟨Host.mk ["ark"] [] [("ark", "p", false), ("alice", "p", false)],
       false, false, false⟩
      "alice" "ark" "p" (by decide) (by decide)).1 "alice" "p" "ark"

/-- Claim C6: on a fully successful run where the fork does not yet
exist, the remote calls happen exactly in the order namespace
verification (one or two probes), fork, fixed propagation wait, delete of
the original, then set-archived on the fork — each exactly once — and the
final host state has the original deleted and the fork archived. -/
theorem c6_success_sequence (force : Bool) (r : Remote) (owner ns repo : String)
    (hns : r.host.orgs.contains ns = true ∨ r.host.users.contains ns = true)
    (hnofork : r.host.hasRepo ns repo = false)
    (_horig : r.host.hasRepo owner repo = true)
    (hff : r.forkFails = false) (hdf : r.deleteFails = false)
    (hef : r.editFails = false) (hne : owner ≠ ns) :
    (ArchiveRepository force r owner ns repo).1 = .ok () ∧
    (∃ nsEvs, (nsEvs = [Event.orgGet ns] ∨ nsEvs = [Event.orgGet ns, Event.userGet ns]) ∧
      (ArchiveRepository force r owner ns repo).2.2
        = nsEvs ++ [Event.repoGet ns repo, Event.createFork owner repo ns, Event.wait 5,
            Event.deleteRepo owner repo, Event.repoGet ns repo,
            Event.editRepo ns repo true]) ∧
    (ArchiveRepository force r owner ns repo).2.1.hasRepo owner repo = false ∧
    (ArchiveRepository force r owner ns repo).2.1.archivedOf ns repo = some true := by
  have hs1 : (CreateArchiveNamespace ns r.host).1 = .ok () ∧
      ((CreateArchiveNamespace ns r.host).2 = [Event.orgGet ns] ∨
       (CreateArchiveNamespace ns r.host).2 = [Event.orgGet ns, Event.userGet ns]) := by
    by_cases hO : r.host.orgs.contains ns = true
    · rw [CreateArchiveNamespace, if_pos hO]; exact ⟨rfl, Or.inl rfl⟩
    · have hU : r.host.users.contains ns = true := hns.resolve_left hO
      rw [CreateArchiveNamespace, if_neg hO, if_pos hU]; exact ⟨rfl, Or.inr rfl⟩
  have hfork : ForkRepository force r.forkFails owner repo ns r.host
      = (.ok (), r.host.addRepo ns repo false,
         [Event.repoGet ns repo, Event.createFork owner repo ns]) := by
    rw [hff]; exact forkRepository_new_ok force owner repo ns r.host hnofork
  have hdel : DeleteRepository force r.deleteFails owner repo (r.host.addRepo ns repo false)
      = (.ok (), (r.host.addRepo ns repo false).removeRepo owner repo,
         [Event.deleteRepo owner repo]) := by
    rw [hdf]; exact deleteRepository_ok force owner repo _
  have hh4has : ((r.host.addRepo ns repo false).removeRepo owner repo).hasRepo ns repo
      = true :=
    hasRepo_removeRepo_ne _ ns repo owner repo (Ne.symm hne)
      (hasRepo_addRepo_self r.host ns repo false)
  have hset : SetArchiveStatus force r.editFails ns repo true
        ((r.host.addRepo ns repo false).removeRepo owner repo)
      = (.ok (), ((r.host.addRepo ns repo false).removeRepo owner repo).setRepoArchived
            ns repo true,
         [Event.repoGet ns repo, Event.editRepo ns repo true]) := by
    rw [hef]; exact setArchiveStatus_ok force ns repo true _ hh4has
  have hgate : ForceProcessing force (errOf (CreateArchiveNamespace ns r.host).1) = false := by
    rw [hs1.1, errOf_ok]; exact forceProcessing_none force
  simp only [ArchiveRepository, hgate, Bool.false_eq_true, if_false, hfork, errOf_ok,
    forceProcessing_none, hdel, hset]
  refine ⟨by trivial, ⟨(CreateArchiveNamespace ns r.host).2, hs1.2, by simp⟩, ?_, ?_⟩
  · rw [hasRepo_setRepoArchived]
    exact hasRepo_removeRepo_self _ owner repo
  · exact archivedOf_setRepoArchived_self _ ns repo true hh4has

/-- Concrete instance of C6: archiving "alice"/"p" into the existing
organization "ark" ends with the fork archived. -/
theorem c6_witness :
    (ArchiveRepository false
        ⟨Host.mk ["ark"] [] [("alice", "p", false)], false, false, false⟩
        "alice" "ark" "p").2.1.archivedOf "ark" "p" = some true :=
  (c6_success_sequence false
      ⟨Host.mk ["ark"] [] [("alice", "p", false)], false, false, false⟩
      "alice" "ark" "p" (Or.inl (by decide)) (by decide) (by decide) rfl rfl rfl
      (by decide)).2.2.2

/-- Claim C8: with the force flag set and a failing delete step, the
transaction does not abort — the run still ends in success and the trace
continues past the delete call directly into the set-archived step (whose
first call is the repository fetch under the archive namespace). -/
theorem c8_force_delete_continues (r : Remote) (owner ns repo : String)
    (hd : r.deleteFails = true) :
    (ArchiveRepository true r owner ns repo).1 = .ok () ∧
    ∃ pre post, (ArchiveRepository true r owner ns repo).2.2
      = pre ++ Event.deleteRepo owner repo :: Event.repoGet ns repo :: post := by
  have hdel : ∀ h : Host, DeleteRepository true r.deleteFails owner repo h
      = (.ok (), h, [Event.deleteRepo owner repo]) := by
    intro h; rw [hd]; exact deleteRepository_force_fail owner repo h
  obtain ⟨rest5, hrest5⟩ := setArchiveStatus_head true r.editFails ns repo true
    ((ForkRepository true r.forkFails owner repo ns r.host).2.1)
  simp only [ArchiveRepository, forceProcessing_true, Bool.false_eq_true, if_false, hdel,
    hrest5]
  refine ⟨trivial, (CreateArchiveNamespace ns r.host).2
      ++ (ForkRepository true r.forkFails owner repo ns r.host).2.2
      ++ [Event.wait 5], rest5, ?_⟩
  simp

/-- Concrete instance of C8: delete fails under force, yet the run
succeeds. -/
theorem c8_witness :
    (ArchiveRepository true
        ⟨Host.mk ["ark"] [] [("alice", "p", false)], false, true, false⟩
        "alice" "ark" "p").1 = .ok () :=
  (c8_force_delete_continues
      ⟨Host.mk ["ark"] [] [("alice", "p", false)], false, true, false⟩
      "alice" "ark" "p" rfl).1
